import Mathlib

/-!
Verification of the `stackalloc` static analyzer (package `analyzer` of
`gostackallocator`) against its specification.

The Go sources are shallowly embedded:

* `go/ast` nodes become the inductive type `Node`; the resolved symbol and
  type information of `go/types` (`types.Info.ObjectOf` / `TypeOf`) is an
  input supplied by the host parser, so it is attached to the nodes as
  `Option Obj` / `Option TypeU` annotations.
* `token.Pos` becomes `Nat`.  Go maps become association lists; Go map
  iteration order is unspecified, the association list fixes one order
  (every property proved below is order-independent).
* the reporting callback `report(pos, msg)` is embedded in writer style:
  each detector returns the list of `(pos, message)` pairs it reports, in
  the source call order, and the traversal accumulates them.
* `ast.Inspect` visits nodes in preorder (a node before its children);
  `inspectNode`/`inspectList` below reproduce that order.  Pure type
  expressions, selector identifiers, function names and receiver lists
  resolve to objects that can never carry an allocation site, so they are
  not modelled as separately visited identifier nodes.
-/

namespace StackAlloc

/-- `token.Pos`, modelled as a natural number. -/
abbrev Pos := Nat

/-- The dynamic kind of a resolved `types.Object`, as far as the analyzer
inspects it: `*types.Builtin` (with its name held in `Obj.name`), a
`*types.Var` whose parent scope is not the package scope (`isLocalVar`),
a package-level `*types.Var`, or anything else. -/
inductive ObjKind where
  | builtin
  | localVar
  | globalVar
  | otherObj
deriving DecidableEq, Repr

/-- A resolved symbol identity (`types.Object`).  In Go the identity is the
object pointer; here distinct objects carry distinct `id`s.  `name` is
`Object.Name()`. -/
structure Obj where
  id : Nat
  name : String
  kind : ObjKind
deriving DecidableEq, Repr

/-- The shape of `types.Type.Underlying()` of an expression, in exactly the
granularity the analyzer queries: `*types.Basic` split by `Kind() == String`,
`*types.Slice`, `*types.Map`, `*types.Chan`, `*types.Array`, `*types.Struct`,
`*types.Interface` split by `Empty()`, and everything else. -/
inductive TypeU where
  | basicString
  | basicOther
  | sliceU
  | mapU
  | chanU
  | arrayU
  | structU
  | ifaceEmpty
  | ifaceNonEmpty
  | otherU
deriving DecidableEq, Repr

/-- `token.Token` literal kinds used by the analyzer: `token.INT`,
`token.STRING`, anything else. -/
inductive LitKind where
  | intL
  | strL
  | otherL
deriving DecidableEq, Repr

/-- Embedding of the `go/ast` node shapes the analyzer inspects.  Each
expression node carries the host-resolved static type (`types.Info.TypeOf`)
as `Option TypeU`; identifiers additionally carry `types.Info.ObjectOf` as
`Option Obj`.  `callN` carries both `Pos()` and `End()` (named `finish`).
`tyExprN` stands for a pure type expression (e.g. the `[]int` argument of
`make`), of which only the resolved type is ever queried. -/
inductive Node where
  | identN (pos : Pos) (name : String) (obj : Option Obj) (ty : Option TypeU)
  | litN (pos : Pos) (kind : LitKind) (value : String) (ty : Option TypeU)
  | tyExprN (pos : Pos) (ty : Option TypeU)
  | unaryN (pos : Pos) (opIsAnd : Bool) (x : Node) (ty : Option TypeU)
  | callN (pos : Pos) (finish : Pos) (fn : Node) (args : List Node) (ty : Option TypeU)
  | starN (pos : Pos) (x : Node) (ty : Option TypeU)
  | selN (pos : Pos) (x : Node) (selName : String) (ty : Option TypeU)
  | compositeN (pos : Pos) (elts : List Node) (ty : Option TypeU)
  | binaryN (pos : Pos) (opIsAdd : Bool) (x y : Node) (ty : Option TypeU)
  | assertN (pos : Pos) (x : Node) (ty : Option TypeU)
  | funcLitN (pos : Pos) (body : List Node)
  | retN (pos : Pos) (results : List Node)
  | assignN (pos : Pos) (lhs rhs : List Node)
  | exprStmtN (x : Node)
  | blockN (stmts : List Node)
  | funcDeclN (name : String) (body : List Node)

/-- `n.Pos()`.  Nodes that only group statements report position 0. -/
def Node.posOf : Node → Pos
  | .identN p _ _ _ => p
  | .litN p _ _ _ => p
  | .tyExprN p _ => p
  | .unaryN p _ _ _ => p
  | .callN p _ _ _ _ => p
  | .starN p _ _ => p
  | .selN p _ _ _ => p
  | .compositeN p _ _ => p
  | .binaryN p _ _ _ _ => p
  | .assertN p _ _ => p
  | .funcLitN p _ => p
  | .retN p _ => p
  | .assignN p _ _ => p
  | .exprStmtN x => x.posOf
  | .blockN _ => 0
  | .funcDeclN _ _ => 0

/-- `types.Info.TypeOf` for an expression node. -/
def Node.tyOf : Node → Option TypeU
  | .identN _ _ _ t => t
  | .litN _ _ _ t => t
  | .tyExprN _ t => t
  | .unaryN _ _ _ t => t
  | .callN _ _ _ _ t => t
  | .starN _ _ t => t
  | .selN _ _ _ t => t
  | .compositeN _ _ t => t
  | .binaryN _ _ _ _ t => t
  | .assertN _ _ t => t
  | _ => none

/-- Boolean prefix test on character lists (`strings.HasPrefix`). -/
def strHasPfx : List Char → List Char → Bool
  | [], _ => true
  | _ :: _, [] => false
  | a :: as, b :: bs => a == b && strHasPfx as bs

/-- `strings.HasPrefix s pat` on strings. -/
def goHasPfx (s pat : String) : Bool := strHasPfx pat.toList s.toList

/-- Contiguous substring test on character lists (`strings.Contains`). -/
def strHasSub (pat : List Char) : List Char → Bool
  | [] => strHasPfx pat []
  | c :: rest => strHasPfx pat (c :: rest) || strHasSub pat rest

/-- `strings.Contains s pat` on strings. -/
def goContains (s pat : String) : Bool := strHasSub pat.toList s.toList

/-- `strings.Count s "%"`: number of percent characters in `s`. -/
def countPercent (s : String) : Nat := s.toList.countP (fun c => c == '%')

/-! ### Messages reported by the analyzer

Taken verbatim from the Go sources.  The first message reads
`... if object doesn't escape` in the source; the contraction is expanded
to `does not` here.  None of the properties below depend on that word. -/

def msgNewCall : String :=
  "new(T) always allocates on heap; consider using stack allocation if object does not escape"

def msgReflect : String :=
  "reflection-based allocation always uses heap; consider avoiding if performance critical"

def msgBoxing : String :=
  "value may be boxed when passed to interface; consider using pointer receiver if appropriate"

def msgMakeSliceSmall : String :=
  "small slice allocation with make(); consider using array or stack allocation"

def msgMakeSliceLarge : String :=
  "large slice allocation may cause GC pressure; consider pre-allocation or streaming"

def msgMakeSliceZero : String :=
  "make([]T) creates zero-length slice; consider using nil slice or array"

def msgMakeMapSmall : String :=
  "small map with known size; consider using struct or array for better performance"

def msgMakeMapNoHint : String :=
  "make(map[K]V) without size hint; consider providing capacity for better performance"

def msgMakeChan : String :=
  "unbuffered or small buffered channel; consider if synchronous communication is needed"

def msgAppendNil : String :=
  "appending to nil slice causes allocation; consider pre-allocating with make()"

def msgAppendBulk : String :=
  "appending multiple elements may cause multiple reallocations; consider pre-allocating capacity"

def msgAppendLoop : String :=
  "append in loop may cause multiple reallocations; consider pre-allocating slice capacity"

def msgSliceLitSmall : String :=
  "small slice literal; consider using array for stack allocation"

def msgSliceLitComplex : String :=
  "slice literal with complex elements may cause multiple allocations"

def msgMapLitSmall : String :=
  "small map literal; consider using struct or switch statement for better performance"

def msgStructLitLarge : String :=
  "large struct literal; consider using pointer or breaking into smaller structs"

def msgStructLitEscape : String :=
  "struct literal address taken; consider stack allocation if lifetime allows"

def msgStringConcat : String :=
  "string concatenation with + operator allocates; consider using strings.Builder for multiple concatenations"

def msgTypeAssert : String :=
  "type assertion may cause allocation if value was boxed; consider avoiding interface\x7b\x7d when possible"

def msgClosureCapture : String :=
  "closure captures variables and may allocate; consider passing values as parameters"

def msgClosureIface : String :=
  "closure assigned to interface causes allocation; consider using concrete function type"

def msgSprintfSimple : String :=
  "simple string formatting; consider using string concatenation or strings.Builder"

def msgSprint : String :=
  "fmt.Sprint family functions allocate; consider using strings.Builder or direct conversion"

def msgItoa : String :=
  "strconv.Itoa allocates; consider using strconv.AppendInt with pre-allocated buffer"

def msgNewRet : String :=
  "new(T) in return/assignment always allocates on heap; consider stack allocation"

/-- The message of the summary pass of `InspectFile`:
`fmt.Sprintf("pointer to %s escapes only once; consider using stack allocation", obj.Name())`. -/
def escapesOnlyOnceMsg (name : String) : String :=
  "pointer to " ++ name ++ " escapes only once; consider using stack allocation"

/-- A raw finding handed to the `report` callback. -/
abbrev Finding := Pos × String

/-! ### Pattern detector helper predicates (`analyzer/patterns.go`) -/

/-- `isLocalVar`: a `*types.Var` whose parent scope is not the package scope. -/
def isLocalVar (obj : Obj) : Bool := obj.kind == ObjKind.localVar

/-- Shared body of `isNewCall`/`isMakeCall`/`isAppendCall`: the call's `Fun`
is an identifier whose object is a `*types.Builtin` with the given name. -/
def isBuiltinCall (s : String) : Node → Bool
  | .callN _ _ (.identN _ _ (some o) _) _ _ => o.kind == ObjKind.builtin && o.name == s
  | _ => false

/-- `PatternDetector.isNewCall` (also `isNewCall` of `inspector.go`). -/
def isNewCall (c : Node) : Bool := isBuiltinCall "new" c

/-- `PatternDetector.isMakeCall`. -/
def isMakeCall (c : Node) : Bool := isBuiltinCall "make" c

/-- `PatternDetector.isAppendCall`. -/
def isAppendCall (c : Node) : Bool := isBuiltinCall "append" c

/-- `PatternDetector.getFunctionName`. -/
def getFunctionName : Node → String
  | .callN _ _ f _ _ =>
    match f with
    | .identN _ n _ _ => n
    | .selN _ (.identN _ pkg _ _) s _ => pkg ++ "." ++ s
    | .selN _ _ s _ => s
    | _ => ""
  | _ => ""

/-- `PatternDetector.isReflectAllocation`. -/
def isReflectAllocation (c : Node) : Bool :=
  let n := getFunctionName c
  goHasPfx n "reflect.New" || goHasPfx n "reflect.MakeSlice" ||
    goHasPfx n "reflect.MakeMap" || goHasPfx n "reflect.MakeChan"

/-- `PatternDetector.isStringFormattingCall`. -/
def isStringFormattingCall (c : Node) : Bool :=
  let n := getFunctionName c
  goHasPfx n "fmt." || goHasPfx n "strconv."

/-- `PatternDetector.isValueTypeToInterface`: the expression's underlying
type is `*types.Basic` or `*types.Struct`. -/
def isValueTypeToInterface (e : Node) : Bool :=
  match e.tyOf with
  | some .basicString => true
  | some .basicOther => true
  | some .structU => true
  | _ => false

/-- `PatternDetector.isBoxingCall`. -/
def isBoxingCall : Node → Bool
  | .callN _ _ _ args _ => !args.isEmpty && args.any isValueTypeToInterface
  | _ => false

/-- `PatternDetector.getTypeKind`. -/
def getTypeKind (e : Node) : String :=
  match e.tyOf with
  | some .sliceU => "slice"
  | some .mapU => "map"
  | some .chanU => "chan"
  | _ => "unknown"

/-- `PatternDetector.getCompositeLiteralType`. -/
def getCompositeLiteralType (e : Node) : String :=
  match e.tyOf with
  | some .sliceU => "slice"
  | some .mapU => "map"
  | some .structU => "struct"
  | some .arrayU => "array"
  | _ => "unknown"

/-- `PatternDetector.isSmallConstantSize`: an integer literal whose decimal
text has at most 2 characters. -/
def isSmallConstantSize : Node → Bool
  | .litN _ .intL v _ => decide (v.length ≤ 2)
  | _ => false

/-- `PatternDetector.isLargeSize`: an integer literal whose text has at
least 4 characters. -/
def isLargeSize : Node → Bool
  | .litN _ .intL v _ => decide (4 ≤ v.length)
  | _ => false

/-- `PatternDetector.isZeroOrSmallSize`. -/
def isZeroOrSmallSize (e : Node) : Bool :=
  match e with
  | .litN _ .intL v _ => v == "0" || isSmallConstantSize e
  | _ => false

/-- `PatternDetector.isSmallSliceLiteral`. -/
def isSmallSliceLiteral : Node → Bool
  | .compositeN _ elts _ => decide (elts.length ≤ 4) && decide (0 < elts.length)
  | _ => false

/-- `PatternDetector.isSmallMapLiteral`. -/
def isSmallMapLiteral : Node → Bool
  | .compositeN _ elts _ => decide (elts.length ≤ 3) && decide (0 < elts.length)
  | _ => false

/-- `PatternDetector.isLargeStructLiteral`. -/
def isLargeStructLiteral : Node → Bool
  | .compositeN _ elts _ => decide (10 < elts.length)
  | _ => false

/-- `PatternDetector.hasComplexElements`: some element is itself a composite
literal or a call expression. -/
def hasComplexElements : Node → Bool
  | .compositeN _ elts _ =>
    elts.any fun e =>
      match e with
      | .compositeN _ _ _ => true
      | .callN _ _ _ _ _ => true
      | _ => false
  | _ => false

/-- `PatternDetector.hasEscapingStructLiteral` (simplified in the source to
always return `false`). -/
def hasEscapingStructLiteral (_ : Node) : Bool := false

/-- `PatternDetector.isStringType`. -/
def isStringType (e : Node) : Bool :=
  match e.tyOf with
  | some .basicString => true
  | _ => false

/-- `PatternDetector.isInterfaceToConcreteAssertion`: asserting from an
empty interface. -/
def isInterfaceToConcreteAssertion : Node → Bool
  | .assertN _ x _ =>
    match x.tyOf with
    | some .ifaceEmpty => true
    | _ => false
  | _ => false

/-- `PatternDetector.isNilSlice`: the expression is the identifier `nil`. -/
def isNilSlice : Node → Bool
  | .identN _ n _ _ => n == "nil"
  | _ => false

/-- `PatternDetector.isInLoop` (simplified in the source to always `false`). -/
def isInLoop (_ : Node) : Bool := false

/-- `PatternDetector.capturesVariables` (simplified in the source to always
`true`: every closure is treated as capturing). -/
def capturesVariables (_ : Node) : Bool := true

/-- `PatternDetector.isClosureToInterface` (simplified to `false`). -/
def isClosureToInterface (_ : Node) : Bool := false

/-- `PatternDetector.isSimpleStringFormatting`: first argument is a string
literal whose text contains at most two `%` characters. -/
def isSimpleStringFormatting : Node → Bool
  | .callN _ _ _ (a :: _) _ =>
    match a with
    | .litN _ .strL v _ => decide (countPercent v ≤ 2)
    | _ => false
  | _ => false

/-- `PatternDetector.isInHotPath` (delegates to `isInLoop`). -/
def isInHotPath (c : Node) : Bool := isInLoop c

/-! ### Pattern detection (`PatternDetector.detect*`, `analyzer/patterns.go`) -/

/-- `PatternDetector.detectMakePatterns`. -/
def detectMakePatterns : Node → List Finding
  | .callN p _ _ (typeExpr :: rest) _ =>
    match getTypeKind typeExpr with
    | "slice" =>
      match rest with
      | sz :: _ =>
        if isSmallConstantSize sz then [(p, msgMakeSliceSmall)]
        else if isLargeSize sz then [(p, msgMakeSliceLarge)]
        else []
      | [] => [(p, msgMakeSliceZero)]
    | "map" =>
      match rest with
      | sz :: _ => if isSmallConstantSize sz then [(p, msgMakeMapSmall)] else []
      | [] => [(p, msgMakeMapNoHint)]
    | "chan" =>
      match rest with
      | sz :: _ => if isZeroOrSmallSize sz then [(p, msgMakeChan)] else []
      | [] => []
    | _ => []
  | _ => []

/-- `PatternDetector.detectAppendPatterns`.  The source returns early when
`len(call.Args) < 2`; each subsequent `if` may report independently. -/
def detectAppendPatterns (c : Node) : List Finding :=
  match c with
  | .callN p _ _ (a0 :: a1 :: rest) _ =>
    (if isNilSlice a0 then [(p, msgAppendNil)] else []) ++
    (if 3 < (a0 :: a1 :: rest).length then [(p, msgAppendBulk)] else []) ++
    (if isInLoop c then [(p, msgAppendLoop)] else [])
  | _ => []

/-- `PatternDetector.detectStringFormattingPatterns`. -/
def detectStringFormattingPatterns (c : Node) : List Finding :=
  match getFunctionName c with
  | "fmt.Sprintf" => if isSimpleStringFormatting c then [(c.posOf, msgSprintfSimple)] else []
  | "fmt.Errorf" => if isSimpleStringFormatting c then [(c.posOf, msgSprintfSimple)] else []
  | "fmt.Sprint" => [(c.posOf, msgSprint)]
  | "fmt.Sprintln" => [(c.posOf, msgSprint)]
  | "strconv.Itoa" => if isInHotPath c then [(c.posOf, msgItoa)] else []
  | _ => []

/-- `PatternDetector.detectCallPatterns`: the call-pattern categories are
tried in source order; each branch `return`s, so the first matching
category short-circuits the rest. -/
def detectCallPatterns (c : Node) : List Finding :=
  if isNewCall c then [(c.posOf, msgNewCall)]
  else if isMakeCall c then detectMakePatterns c
  else if isAppendCall c then detectAppendPatterns c
  else if isReflectAllocation c then [(c.posOf, msgReflect)]
  else if isStringFormattingCall c then detectStringFormattingPatterns c
  else if isBoxingCall c then [(c.posOf, msgBoxing)]
  else []

/-- `PatternDetector.detectCompositeLiteralPatterns`. -/
def detectCompositeLiteralPatterns (c : Node) : List Finding :=
  match getCompositeLiteralType c with
  | "slice" =>
    (if isSmallSliceLiteral c then [(c.posOf, msgSliceLitSmall)] else []) ++
    (if hasComplexElements c then [(c.posOf, msgSliceLitComplex)] else [])
  | "map" => if isSmallMapLiteral c then [(c.posOf, msgMapLitSmall)] else []
  | "struct" =>
    (if isLargeStructLiteral c then [(c.posOf, msgStructLitLarge)] else []) ++
    (if hasEscapingStructLiteral c then [(c.posOf, msgStructLitEscape)] else [])
  | _ => []

/-- `PatternDetector.detectBinaryExprPatterns`. -/
def detectBinaryExprPatterns : Node → List Finding
  | .binaryN p true x y _ =>
    if isStringType x && isStringType y then [(p, msgStringConcat)] else []
  | _ => []

/-- `PatternDetector.detectTypeAssertionPatterns`. -/
def detectTypeAssertionPatterns (c : Node) : List Finding :=
  match c with
  | .assertN p _ _ =>
    if isInterfaceToConcreteAssertion c then [(p, msgTypeAssert)] else []
  | _ => []

/-- `PatternDetector.detectClosurePatterns`. -/
def detectClosurePatterns (c : Node) : List Finding :=
  match c with
  | .funcLitN p _ =>
    (if capturesVariables c then [(p, msgClosureCapture)] else []) ++
    (if isClosureToInterface c then [(p, msgClosureIface)] else [])
  | _ => []

/-- `PatternDetector.DetectPattern`: dispatch on the dynamic node type. -/
def DetectPattern (n : Node) : List Finding :=
  match n with
  | .callN _ _ _ _ _ => detectCallPatterns n
  | .compositeN _ _ _ => detectCompositeLiteralPatterns n
  | .binaryN _ _ _ _ _ => detectBinaryExprPatterns n
  | .assertN _ _ _ => detectTypeAssertionPatterns n
  | .funcLitN _ _ => detectClosurePatterns n
  | _ => []

/-! ### Usage/escape tracker (`analyzer/inspector.go`) -/

/-- Association-list read (Go map read; `none` plays the role of the
zero-value/absent result). -/
def getA {α β : Type} [DecidableEq α] : List (α × β) → α → Option β
  | [], _ => none
  | (k', v) :: rest, k => if k' = k then some v else getA rest k

/-- Association-list write (Go map assignment `m[k] = v`). -/
def setA {α β : Type} [DecidableEq α] : List (α × β) → α → β → List (α × β)
  | [], k, v => [(k, v)]
  | (k', v') :: rest, k, v =>
    if k' = k then (k, v) :: rest else (k', v') :: setA rest k v

/-- `usageTracker`: allocation sites, use counts and escape flags keyed by
resolved object. -/
structure usageTracker where
  allocSites : List (Obj × Pos)
  useCounts : List (Obj × Nat)
  escapes : List (Obj × Bool)
deriving Repr

/-- `newUsageTracker`. -/
def newUsageTracker : usageTracker := ⟨[], [], []⟩

/-- `tracker.useCounts[obj]++` (Go increments through the zero value). -/
def bumpUse (t : usageTracker) (obj : Obj) : usageTracker :=
  { t with useCounts := setA t.useCounts obj ((getA t.useCounts obj).getD 0 + 1) }

/-- `_, exists := tracker.allocSites[obj]`. -/
def hasSite (t : usageTracker) (obj : Obj) : Bool := (getA t.allocSites obj).isSome

/-- The state threaded through the traversal: the tracker plus the findings
reported so far (`report` appends to the right). -/
structure InspState where
  tracker : usageTracker
  reports : List Finding
deriving Repr

/-- `tracker.useCounts[obj]++` lifted to the traversal state. -/
def bumpSt (s : InspState) (obj : Obj) : InspState :=
  { s with tracker := bumpUse s.tracker obj }

/-- `checkEscapingAllocation`: on an address-of-identifier whose object
already has an allocation site, set the escape flag; on a `new()` call,
report the return/assignment finding. -/
def checkEscapingAllocation (st : InspState) (e : Node) : InspState :=
  match e with
  | .unaryN _ op x _ =>
    if op then
      match x with
      | .identN _ _ (some obj) _ =>
        if hasSite st.tracker obj then
          { st with tracker :=
              { st.tracker with escapes := setA st.tracker.escapes obj true } }
        else st
      | _ => st
    else st
  | .callN p q f args t =>
    if isNewCall (.callN p q f args t) then
      { st with reports := st.reports ++ [(p, msgNewRet)] }
    else st
  | _ => st

/-- The per-argument body of the `*ast.CallExpr` case of the `InspectFile`
visitor: an identifier argument with a resolved object that already has an
allocation site counts one more use. -/
def visitArg (acc : InspState) (a : Node) : InspState :=
  match a with
  | .identN _ _ o _ =>
    match o with
    | some obj => if hasSite acc.tracker obj then bumpSt acc obj else acc
    | none => acc
  | _ => acc

/-- The per-node visitor of `InspectFile`: run `DetectPattern`, then the
type switch (address-of records a site and counts a use; call arguments and
plain identifiers with a recorded site count uses; return/assignment
right-hand sides are checked for escaping allocations). -/
def inspectVisit (st : InspState) (n : Node) : InspState :=
  let st1 : InspState := { st with reports := st.reports ++ DetectPattern n }
  match n with
  | .unaryN p op x _ =>
    if op then
      match x with
      | .identN _ _ (some obj) _ =>
        if isLocalVar obj then
          bumpSt { st1 with tracker :=
            { st1.tracker with allocSites := setA st1.tracker.allocSites obj p } } obj
        else st1
      | _ => st1
    else st1
  | .callN _ _ _ args _ => args.foldl visitArg st1
  | .identN _ _ o _ =>
    match o with
    | some obj => if hasSite st1.tracker obj then bumpSt st1 obj else st1
    | none => st1
  | .retN _ results => results.foldl checkEscapingAllocation st1
  | .assignN _ _ rhs => rhs.foldl checkEscapingAllocation st1
  | _ => st1

mutual

/-- `ast.Inspect` preorder traversal: visit the node, then its children in
source order. -/
def inspectNode (st : InspState) (n : Node) : InspState :=
  let st1 := inspectVisit st n
  match n with
  | .identN _ _ _ _ => st1
  | .litN _ _ _ _ => st1
  | .tyExprN _ _ => st1
  | .unaryN _ _ x _ => inspectNode st1 x
  | .callN _ _ f args _ => inspectList (inspectNode st1 f) args
  | .starN _ x _ => inspectNode st1 x
  | .selN _ x _ _ => inspectNode st1 x
  | .compositeN _ elts _ => inspectList st1 elts
  | .binaryN _ _ x y _ => inspectNode (inspectNode st1 x) y
  | .assertN _ x _ => inspectNode st1 x
  | .funcLitN _ body => inspectList st1 body
  | .retN _ results => inspectList st1 results
  | .assignN _ lhs rhs => inspectList (inspectList st1 lhs) rhs
  | .exprStmtN x => inspectNode st1 x
  | .blockN stmts => inspectList st1 stmts
  | .funcDeclN _ body => inspectList st1 body

/-- Traversal of a list of sibling nodes, left to right. -/
def inspectList (st : InspState) (l : List Node) : InspState :=
  match l with
  | [] => st
  | n :: rest => inspectList (inspectNode st n) rest

end

/-- The summary pass of `InspectFile`: for every object with an allocation
site whose final use count is at most 1 and whose escape flag is set,
report `escapesOnlyOnceMsg` at the recorded site. -/
def summaryFindings (t : usageTracker) : List Finding :=
  t.allocSites.filterMap fun kv =>
    if (getA t.useCounts kv.1).getD 0 ≤ 1 ∧ (getA t.escapes kv.1).getD false = true then
      some (kv.2, escapesOnlyOnceMsg kv.1.name)
    else none

/-- `InspectFile`: traverse the file, then run the summary pass. -/
def InspectFile (file : Node) : InspState :=
  let st := inspectNode ⟨newUsageTracker, []⟩ file
  { st with reports := st.reports ++ summaryFindings st.tracker }

/-! ### Fix tracker (`analyzer/analyzer.go`, `FixTracker.AddFix`) -/

/-- `analysis.TextEdit`: replace the bytes in `[pos, stop)` by `newText`.
The source field `End` is renamed `stop` (`end` is reserved in Lean). -/
structure TextEdit where
  pos : Nat
  stop : Nat
  newText : String
deriving DecidableEq, Repr

/-- The overlap test of `AddFix`:
`newEdit.Pos <= existingEdit.End && newEdit.End >= existingEdit.Pos`. -/
def editOverlaps (newE oldE : TextEdit) : Prop :=
  newE.pos ≤ oldE.stop ∧ oldE.pos ≤ newE.stop

instance (newE oldE : TextEdit) : Decidable (editOverlaps newE oldE) := by
  unfold editOverlaps; infer_instance

/-- The replacement test of `AddFix`:
`len(newEdit.NewText) > 0 && !strings.Contains(..., "TODO")`. -/
def isBetterReplacement (e : TextEdit) : Bool :=
  decide (0 < e.newText.length) && !goContains e.newText "TODO"

/-- The inner loop of `AddFix` for one new edit: scan the recorded edits in
order; at the first overlapping edit, replace it in place when the new text
is non-empty and not a placeholder, otherwise keep the existing edit and
drop the new one, and stop scanning (`break`); if no recorded edit
overlaps, append the new edit. -/
def addEditOnce : List TextEdit → TextEdit → List TextEdit
  | [], newE => [newE]
  | oldE :: rest, newE =>
    if editOverlaps newE oldE then
      if isBetterReplacement newE then newE :: rest else oldE :: rest
    else oldE :: addEditOnce rest newE

/-- `FixTracker.AddFix`: fold the new edits for one file into the recorded
edit list of that file (the mutex only serialises concurrent calls and has
no sequential content). -/
def AddFix (fixes : List (String × List TextEdit)) (filename : String)
    (edits : List TextEdit) : List (String × List TextEdit) :=
  setA fixes filename (edits.foldl addEditOnce ((getA fixes filename).getD []))

/-- `NewFixTracker`: the empty edit map. -/
def NewFixTracker : List (String × List TextEdit) := []

/-! ### Autofix engine (`analyzer/autofix.go`)

File content is a list of characters (bytes).  `tokenPosToByteOffset`
recomputes an edit position as a byte offset into the current content from
the file coordinates of the position; edits are applied from the end of the
file toward the beginning, so the bytes before an edit are untouched when
it is applied and the recomputed offset is the position itself.  The model
therefore reads `TextEdit.pos`/`TextEdit.stop` directly as byte offsets,
and keeps the out-of-range guard of `applyTextEdit` (an out-of-range edit
is skipped, not an error). -/

/-- `AutoFixer.applyTextEdit`. -/
def applyTextEdit (content : List Char) (edit : TextEdit) : List Char :=
  if edit.pos > content.length ∨ edit.stop > content.length then content
  else content.take edit.pos ++ edit.newText.toList ++ content.drop edit.stop

/-- Insertion step of the descending-by-position sort of
`ApplyFixesToFile` (`sort.Slice(fixes, fixes[i].Pos > fixes[j].Pos)`). -/
def insertDesc (e : TextEdit) : List TextEdit → List TextEdit
  | [] => [e]
  | f :: rest => if f.pos ≤ e.pos then e :: f :: rest else f :: insertDesc e rest

/-- The descending-by-position sort of `ApplyFixesToFile`. -/
def sortFixesDesc (l : List TextEdit) : List TextEdit := l.foldr insertDesc []

/-- `AutoFixer.ApplyFixesToFile` (the pure edit pipeline: read content,
sort edits by descending position, apply each in turn; reformatting and the
file write are I/O and outside the model). -/
def ApplyFixesToFile (content : List Char) (fixes : List TextEdit) : List Char :=
  (sortFixesDesc fixes).foldl applyTextEdit content

/-- The zero-value switch shared by `generateNewTFix` and
`generateNewCallFix`: the four built-in scalar type names map to their
zero-value literals, everything else to `none`. -/
def zeroValueFor (typeStr : String) : Option String :=
  match typeStr with
  | "string" => some "\"\""
  | "int" => some "0"
  | "bool" => some "false"
  | "float64" => some "0.0"
  | _ => none

/-- `AutoFixer.generateNewCallFix`: for a `new(T)` call with exactly one
argument, read the type name from an identifier or selector argument, map
it through the zero-value switch, and produce a `TextEdit` replacing
`[call.Pos(), call.End())`; any other type name (or argument shape) yields
no fix. -/
def generateNewCallFix (call : Node) : Option TextEdit :=
  match call with
  | .callN p q _ [typeExpr] _ =>
    match typeExpr with
    | .identN _ n _ _ =>
      match zeroValueFor n with
      | some r => some ⟨p, q, r⟩
      | none => none
    | .selN _ (.identN _ pkg _ _) s _ =>
      match zeroValueFor (pkg ++ "." ++ s) with
      | some r => some ⟨p, q, r⟩
      | none => none
    | .selN _ _ s _ =>
      match zeroValueFor s with
      | some r => some ⟨p, q, r⟩
      | none => none
    | _ => none
  | _ => none

/-! ### Preorder node enumeration

`preNodes n` is the list of nodes `ast.Inspect` visits inside `n`, in visit
order; used to quantify over "every node of the file". -/

mutual

/-- All nodes of a subtree in preorder. -/
def preNodes : Node → List Node
  | .identN p nm o t => [.identN p nm o t]
  | .litN p k v t => [.litN p k v t]
  | .tyExprN p t => [.tyExprN p t]
  | .unaryN p a x t => .unaryN p a x t :: preNodes x
  | .callN p q f args t => .callN p q f args t :: (preNodes f ++ preList args)
  | .starN p x t => .starN p x t :: preNodes x
  | .selN p x s t => .selN p x s t :: preNodes x
  | .compositeN p elts t => .compositeN p elts t :: preList elts
  | .binaryN p a x y t => .binaryN p a x y t :: (preNodes x ++ preNodes y)
  | .assertN p x t => .assertN p x t :: preNodes x
  | .funcLitN p b => .funcLitN p b :: preList b
  | .retN p rs => .retN p rs :: preList rs
  | .assignN p l r => .assignN p l r :: (preList l ++ preList r)
  | .exprStmtN x => .exprStmtN x :: preNodes x
  | .blockN s => .blockN s :: preList s
  | .funcDeclN nm b => .funcDeclN nm b :: preList b

/-- All nodes of a list of subtrees in preorder. -/
def preList : List Node → List Node
  | [] => []
  | n :: rest => preNodes n ++ preList rest

end

/-- The expressions `checkEscapingAllocation` is applied to when a
statement is visited: the results of a `return`, the right-hand sides of an
assignment. -/
def directRhs : Node → List Node
  | .retN _ results => results
  | .assignN _ _ rhs => rhs
  | _ => []

/-- The argument list of a call node. -/
def callArgs : Node → List Node
  | .callN _ _ _ args _ => args
  | _ => []

/-! ### Concrete fixtures from the specification scenarios -/

/-- The local variable `x` of the scenario functions. -/
def xObj : Obj := ⟨1, "x", .localVar⟩

/-- The local variable `y` of the scenario function `g`. -/
def yObj : Obj := ⟨2, "y", .localVar⟩

/-- The function object `use` of the scenario function `g`. -/
def useObj : Obj := ⟨3, "use", .otherObj⟩

/-- The builtin object `new`. -/
def newObj : Obj := ⟨4, "new", .builtin⟩

/-- The builtin object `make`. -/
def makeObj : Obj := ⟨5, "make", .builtin⟩

/-- The builtin object `append`. -/
def appendObj : Obj := ⟨6, "append", .builtin⟩

/-- The type object `string` (argument of `new(string)`). -/
def stringTyObj : Obj := ⟨7, "string", .otherObj⟩

/-- AST of `func f() *int { x := 42; return &x }` (spec scenario): an
assignment recording `x := 42`, then `return &x`.  Positions are byte
offsets; `27` is the position of the `&x` operand. -/
def fFile : Node := .funcDeclN "f" [
  .assignN 10 [.identN 10 "x" (some xObj) (some .basicOther)]
    [.litN 15 .intL "42" (some .basicOther)],
  .retN 20 [.unaryN 27 true (.identN 28 "x" (some xObj) (some .basicOther)) none]]

/-- AST of `func g() { x := 42; y := &x; use(*y) }` (spec scenario). -/
def gFile : Node := .funcDeclN "g" [
  .assignN 40 [.identN 40 "x" (some xObj) (some .basicOther)]
    [.litN 45 .intL "42" (some .basicOther)],
  .assignN 50 [.identN 50 "y" (some yObj) none]
    [.unaryN 55 true (.identN 56 "x" (some xObj) (some .basicOther)) none],
  .exprStmtN (.callN 60 68 (.identN 60 "use" (some useObj) none)
    [.starN 64 (.identN 65 "y" (some yObj) none) (some .basicOther)] none)]

/-- A file taking the address of the same local twice, at positions 110
and 120: `y := &x` then `z := &x`. -/
def twoTakesFile : Node := .funcDeclN "h" [
  .assignN 105 [.identN 105 "y" (some yObj) none]
    [.unaryN 110 true (.identN 111 "x" (some xObj) (some .basicOther)) none],
  .assignN 115 [.identN 115 "z" (some ⟨8, "z", .localVar⟩) none]
    [.unaryN 120 true (.identN 121 "x" (some xObj) (some .basicOther)) none]]

/-- AST of `make([]int, 5)` at position 200. -/
def make5Call : Node :=
  .callN 200 214 (.identN 200 "make" (some makeObj) none)
    [.tyExprN 205 (some .sliceU), .litN 212 .intL "5" (some .basicOther)]
    (some .sliceU)

/-- AST of `make([]int, 10000)` at position 220. -/
def make10000Call : Node :=
  .callN 220 238 (.identN 220 "make" (some makeObj) none)
    [.tyExprN 225 (some .sliceU), .litN 232 .intL "10000" (some .basicOther)]
    (some .sliceU)

/-- A file whose single statement evaluates `make([]int, 5)`. -/
def make5File : Node := .funcDeclN "m1" [.exprStmtN make5Call]

/-- A file whose single statement evaluates `make([]int, 10000)`. -/
def make10000File : Node := .funcDeclN "m2" [.exprStmtN make10000Call]

/-- AST of `new(string)` at position 310 (call end 321). -/
def newStringCall : Node :=
  .callN 310 321 (.identN 310 "new" (some newObj) none)
    [.identN 314 "string" (some stringTyObj) none] none

/-- AST of `func useNew() *string { return new(string) }` (test scenario
of `analyzer_test.go`). -/
def useNewFile : Node := .funcDeclN "useNew" [.retN 300 [newStringCall]]

/-- AST of `append(nil, a, b, c)` at position 400: one collection argument
and three positional value arguments. -/
def appendNilBulkCall : Node :=
  .callN 400 420 (.identN 400 "append" (some appendObj) none)
    [.identN 407 "nil" none none,
     .identN 412 "a" none (some .basicOther),
     .identN 415 "b" none (some .basicOther),
     .identN 418 "c" none (some .basicOther)] none

/-- The specification-side description of the edit application of
`applyAll` (spec, section 4.4): take the edits in descending start order
and splice each one as `[0, start) ++ replacement ++ [end, original
length)` over the *original* bytes; the recursion applies the remaining
(lower) edits to the untouched original prefix `[0, start)`, so the result
equals the original content outside every edited range and each edit's
replacement text inside its range. -/
def spliceSpec : List TextEdit → List Char → List Char
  | [], c => c
  | e :: rest, c =>
    spliceSpec rest (c.take e.pos) ++ e.newText.toList ++ c.drop e.stop

/-- The findings `checkEscapingAllocation` reports for one right-hand
expression (the tracker state never influences reporting: only the
escape-flag update depends on it). -/
def escEmits : Node → List Finding
  | .callN p q f args t =>
    if isNewCall (.callN p q f args t) then [(p, msgNewRet)] else []
  | _ => []

/-- `escEmits` over a list of right-hand expressions, in order. -/
def escList : List Node → List Finding
  | [] => []
  | e :: rest => escEmits e ++ escList rest

/-- The findings one visit of the `InspectFile` callback reports for a
node: the pattern-classifier findings, plus — for `return`/assignment
statements — the escaping-allocation findings of the right-hand sides. -/
def visitEmits (n : Node) : List Finding :=
  DetectPattern n ++
    (match n with
     | .retN _ results => escList results
     | .assignN _ _ rhs => escList rhs
     | _ => [])

mutual

/-- All findings reported while traversing a subtree, in visit order. -/
def emittedNode : Node → List Finding
  | .identN p nm o t => visitEmits (.identN p nm o t)
  | .litN p k v t => visitEmits (.litN p k v t)
  | .tyExprN p t => visitEmits (.tyExprN p t)
  | .unaryN p a x t => visitEmits (.unaryN p a x t) ++ emittedNode x
  | .callN p q f args t =>
    visitEmits (.callN p q f args t) ++ (emittedNode f ++ emittedList args)
  | .starN p x t => visitEmits (.starN p x t) ++ emittedNode x
  | .selN p x sl t => visitEmits (.selN p x sl t) ++ emittedNode x
  | .compositeN p elts t => visitEmits (.compositeN p elts t) ++ emittedList elts
  | .binaryN p a x y t =>
    visitEmits (.binaryN p a x y t) ++ (emittedNode x ++ emittedNode y)
  | .assertN p x t => visitEmits (.assertN p x t) ++ emittedNode x
  | .funcLitN p b => visitEmits (.funcLitN p b) ++ emittedList b
  | .retN p rs => visitEmits (.retN p rs) ++ emittedList rs
  | .assignN p l r => visitEmits (.assignN p l r) ++ (emittedList l ++ emittedList r)
  | .exprStmtN x => visitEmits (.exprStmtN x) ++ emittedNode x
  | .blockN stmts => visitEmits (.blockN stmts) ++ emittedList stmts
  | .funcDeclN nm b => visitEmits (.funcDeclN nm b) ++ emittedList b

/-- All findings reported while traversing a list of subtrees, in order. -/
def emittedList : List Node → List Finding
  | [] => []
  | n :: rest => emittedNode n ++ emittedList rest

end

/-- The messages of the explicit-heap-allocation category. -/
def newCallMsgs : List String := [msgNewCall]

/-- The messages of the make category. -/
def makeMsgs : List String :=
  [msgMakeSliceSmall, msgMakeSliceLarge, msgMakeSliceZero, msgMakeMapSmall,
   msgMakeMapNoHint, msgMakeChan]

/-- The messages of the append category. -/
def appendMsgs : List String := [msgAppendNil, msgAppendBulk, msgAppendLoop]

/-- The messages of the reflective-allocation category. -/
def reflectMsgs : List String := [msgReflect]

/-- The messages of the string-formatting category. -/
def fmtMsgs : List String := [msgSprintfSimple, msgSprint, msgItoa]

/-- The messages of the boxing category. -/
def boxingMsgs : List String := [msgBoxing]

/-- Every finding of `detectMakePatterns` carries a make-category message. -/
theorem detectMakePatterns_subset (c : Node) :
    ∀ f ∈ detectMakePatterns c, f.2 ∈ makeMsgs := by
  intro f hf
  unfold detectMakePatterns at hf
  repeat' split at hf
  all_goals simp_all [makeMsgs]

/-- Every finding of `detectAppendPatterns` carries an append-category
message. -/
theorem detectAppendPatterns_subset (c : Node) :
    ∀ f ∈ detectAppendPatterns c, f.2 ∈ appendMsgs := by
  intro f hf
  unfold detectAppendPatterns at hf
  repeat' split at hf
  all_goals (rcases f with ⟨fp, fm⟩; simp_all [appendMsgs]) <;> tauto

/-- Every finding of `detectStringFormattingPatterns` carries a
string-formatting-category message. -/
theorem detectStringFormattingPatterns_subset (c : Node) :
    ∀ f ∈ detectStringFormattingPatterns c, f.2 ∈ fmtMsgs := by
  intro f hf
  unfold detectStringFormattingPatterns at hf
  repeat' split at hf
  all_goals simp_all [fmtMsgs]

/-! ## Theorems -/

/-- Reading back the key just written into a Go map. -/
theorem getA_setA_self {α β : Type} [DecidableEq α] (l : List (α × β)) (k : α) (v : β) :
    getA (setA l k v) k = some v := by
  induction l with
  | nil => simp [setA, getA]
  | cons hd tl ih =>
    obtain ⟨k', v'⟩ := hd
    by_cases hk : k' = k
    · simp [setA, hk, getA]
    · simp [setA, hk, getA, ih]

/-- **C1** (the code side of the claim).  On the spec scenario
`func f() *int { x := 42; return &x }` the analyzer reports nothing at all:
in particular it does not report the "escapes only once" finding the claim
requires.  The traversal visits the `return` statement before its `&x`
child, so the escape flag is tested before any allocation site exists, and
the identifier inside `&x` is itself visited right after the address-of
node, leaving `x` with use count 2; the summary condition
(use count ≤ 1 and escaping) is therefore never satisfied.  For `g` no
"escapes only once" finding is produced either (as the claim states). -/
theorem c1_f_scenario_produces_no_escape_finding :
    (InspectFile fFile).reports = [] ∧
    getA (InspectFile fFile).tracker.allocSites xObj = some 27 ∧
    getA (InspectFile fFile).tracker.useCounts xObj = some 2 ∧
    getA (InspectFile fFile).tracker.escapes xObj = none ∧
    (∀ f ∈ (InspectFile gFile).reports,
      f.2 ≠ escapesOnlyOnceMsg "x" ∧ f.2 ≠ escapesOnlyOnceMsg "y") := by
  decide

/-- **C2** (counterexample).  Taking the address of `x` at position 110 and
then again at position 120 leaves 120 — the position of the *later*
address-taking — as the recorded allocation site: the first-recorded
position is overwritten, contrary to the claim. -/
theorem c2_counterexample_site_overwritten :
    getA (InspectFile twoTakesFile).tracker.allocSites xObj = some 120 ∧
    getA (InspectFile twoTakesFile).tracker.allocSites xObj ≠ some 110 := by
  decide

/-- **C2** (amended).  Every address-taking of a local variable stores its
own position as the allocation site, overwriting any previously recorded
site (last take wins), and increments the use count. -/
theorem c2_amended_each_take_overwrites_site (st : InspState) (p ip : Pos)
    (nm : String) (obj : Obj) (t it : Option TypeU) (h : isLocalVar obj = true) :
    getA ((inspectVisit st
        (.unaryN p true (.identN ip nm (some obj) it) t)).tracker.allocSites) obj
      = some p ∧
    getA ((inspectVisit st
        (.unaryN p true (.identN ip nm (some obj) it) t)).tracker.useCounts) obj
      = some ((getA st.tracker.useCounts obj).getD 0 + 1) := by
  unfold inspectVisit
  simp [h, bumpSt, bumpUse, getA_setA_self]

/-- **C2** (amended, witness). -/
theorem c2_amended_witness :
    getA ((inspectVisit ⟨newUsageTracker, []⟩
        (.unaryN 9 true (.identN 10 "x" (some xObj) none) none)).tracker.allocSites) xObj
      = some 9 := by
  exact (c2_amended_each_take_overwrites_site ⟨newUsageTracker, []⟩ 9 10 "x" xObj
    none none (by decide)).1

/-- The make-slice messages are distinct. -/
theorem makeSlice_msgs_distinct : msgMakeSliceLarge ≠ msgMakeSliceSmall := by decide

/-- The make-slice messages are distinct (other direction). -/
theorem makeSlice_msgs_distinct' : msgMakeSliceSmall ≠ msgMakeSliceLarge := by decide

/-- **C5.**  For a `make` call on a slice-typed first argument whose size
argument is an integer literal with text `v`, the "small" finding is
emitted exactly when `v` has at most 2 characters and the "large" finding
exactly when `v` has at least 4 characters (text length, not numeric
value); the scenarios `make([]int, 5)` and `make([]int, 10000)` produce
exactly one "small" resp. "large" finding. -/
theorem c5_make_size_by_literal_text_length :
    (∀ (p q fp lp : Pos) (fname v : String) (mo : Obj) (fty lty cty : Option TypeU)
        (tyA : Node) (rest : List Node),
      mo.kind = .builtin → mo.name = "make" → tyA.tyOf = some .sliceU →
      (((p, msgMakeSliceSmall) ∈ detectCallPatterns
          (.callN p q (.identN fp fname (some mo) fty)
            (tyA :: .litN lp .intL v lty :: rest) cty)) ↔ v.length ≤ 2) ∧
      (((p, msgMakeSliceLarge) ∈ detectCallPatterns
          (.callN p q (.identN fp fname (some mo) fty)
            (tyA :: .litN lp .intL v lty :: rest) cty)) ↔ 4 ≤ v.length)) ∧
    (InspectFile make5File).reports = [(200, msgMakeSliceSmall)] ∧
    (InspectFile make10000File).reports = [(220, msgMakeSliceLarge)] := by
  refine ⟨?_, by decide, by decide⟩
  intro p q fp lp fname v mo fty lty cty tyA rest hk hn hty
  have hdet : detectCallPatterns
      (.callN p q (.identN fp fname (some mo) fty)
        (tyA :: .litN lp .intL v lty :: rest) cty)
      = if v.length ≤ 2 then [(p, msgMakeSliceSmall)]
        else if 4 ≤ v.length then [(p, msgMakeSliceLarge)]
        else [] := by
    simp [detectCallPatterns, isNewCall, isMakeCall, isBuiltinCall, hk, hn,
      detectMakePatterns, getTypeKind, hty, isSmallConstantSize, isLargeSize]
  rw [hdet]
  by_cases hs : v.length ≤ 2
  · have hl : ¬ 4 ≤ v.length := by omega
    simp [hs, hl, makeSlice_msgs_distinct]
  · by_cases hl : 4 ≤ v.length
    · simp [hs, hl, makeSlice_msgs_distinct']
    · simp [hs, hl]

/-- **C5** (witness): the general part applied to `make([]int, 5)`. -/
theorem c5_witness :
    ((200, msgMakeSliceSmall) ∈ detectCallPatterns make5Call) ∧
    ¬ ((200, msgMakeSliceLarge) ∈ detectCallPatterns make5Call) := by
  have h := (c5_make_size_by_literal_text_length.1 200 214 200 212 "make" "5"
    makeObj none (some .basicOther) (some .sliceU) (.tyExprN 205 (some .sliceU)) []
    rfl rfl rfl)
  exact ⟨h.1.mpr (by decide), fun hm => absurd (h.2.mp hm) (by decide)⟩

/-- **C8.**  Deriving a structured fix for a `new(T)` call maps the
allocated type name to its zero-value literal for exactly the four built-in
scalar cases and replaces the whole allocation expression's byte range
`[call.Pos(), call.End())`; every other type name (including every
package-qualified name) yields no structured fix. -/
theorem c8_zero_value_fix_exactly_four_scalars (p q fp : Pos) (fn : Node)
    (n : String) (io : Option Obj) (it cty : Option TypeU) :
    (n = "string" →
      generateNewCallFix (.callN p q fn [.identN fp n io it] cty) = some ⟨p, q, "\"\""⟩) ∧
    (n = "int" →
      generateNewCallFix (.callN p q fn [.identN fp n io it] cty) = some ⟨p, q, "0"⟩) ∧
    (n = "bool" →
      generateNewCallFix (.callN p q fn [.identN fp n io it] cty) = some ⟨p, q, "false"⟩) ∧
    (n = "float64" →
      generateNewCallFix (.callN p q fn [.identN fp n io it] cty) = some ⟨p, q, "0.0"⟩) ∧
    (n ∉ ["string", "int", "bool", "float64"] →
      generateNewCallFix (.callN p q fn [.identN fp n io it] cty) = none) ∧
    (∀ (sp : Pos) (x : Node) (s : String) (st : Option TypeU),
      (match x with
       | .identN _ pkg _ _ => pkg ++ "." ++ s
       | _ => s) ∉ (["string", "int", "bool", "float64"] : List String) →
      generateNewCallFix (.callN p q fn [.selN sp x s st] cty) = none) := by
  refine ⟨?_, ?_, ?_, ?_, ?_, ?_⟩
  · rintro rfl; rfl
  · rintro rfl; rfl
  · rintro rfl; rfl
  · rintro rfl; rfl
  · intro hn
    simp only [List.mem_cons, List.not_mem_nil, or_false, not_or] at hn
    obtain ⟨h1, h2, h3, h4⟩ := hn
    have hz : zeroValueFor n = none := by
      unfold zeroValueFor
      split <;> simp_all
    simp [generateNewCallFix, hz]
  · intro sp x s st hn
    cases x with
    | identN xp pkg xo xt =>
      simp only [List.mem_cons, List.not_mem_nil, or_false, not_or] at hn
      have hz : zeroValueFor (pkg ++ "." ++ s) = none := by
        unfold zeroValueFor
        split <;> simp_all
      simp [generateNewCallFix, hz]
    | _ =>
      simp only [List.mem_cons, List.not_mem_nil, or_false, not_or] at hn
      have hz : zeroValueFor s = none := by
        unfold zeroValueFor
        split <;> simp_all
      simp [generateNewCallFix, hz]

/-- **C8** (witness): the `new(string)` scenario call is rewritten to `""`
over its whole byte range. -/
theorem c8_witness : generateNewCallFix newStringCall = some ⟨310, 321, "\"\""⟩ :=
  (c8_zero_value_fix_exactly_four_scalars 310 321 314
    (.identN 310 "new" (some newObj) none) "string" (some stringTyObj) none none).1 rfl

/-- **C9** (counterexample).  `append(nil, a, b, c)` has exactly 3
positional value arguments (4 arguments in total), so by the claim no
"bulk growth" finding should be emitted (3 is not more than 3); the
classifier emits one nevertheless, because the source tests
`len(call.Args) > 3` — against the total argument count. -/
theorem c9_counterexample_bulk_at_three_value_args :
    (400, msgAppendBulk) ∈ detectCallPatterns appendNilBulkCall ∧
    (callArgs appendNilBulkCall).length = 4 ∧
    ¬ ((callArgs appendNilBulkCall).length - 1 > 3) := by
  decide

/-- **C9** (amended).  For an `append` call with at least two arguments,
the "growing a nil collection" finding is emitted exactly when the first
argument is the literal `nil` identifier, and the "bulk growth" finding is
emitted exactly when the call has more than 3 arguments in total (i.e. more
than 2 positional value arguments); a call with fewer than two arguments
emits nothing. -/
theorem c9_amended_append_thresholds (p q fp : Pos) (fname : String) (ao : Obj)
    (fty cty : Option TypeU) (a0 a1 : Node) (rest : List Node)
    (hk : ao.kind = .builtin) (hn : ao.name = "append") :
    (((p, msgAppendNil) ∈ detectCallPatterns
        (.callN p q (.identN fp fname (some ao) fty) (a0 :: a1 :: rest) cty)) ↔
      isNilSlice a0 = true) ∧
    (((p, msgAppendBulk) ∈ detectCallPatterns
        (.callN p q (.identN fp fname (some ao) fty) (a0 :: a1 :: rest) cty)) ↔
      3 < (a0 :: a1 :: rest).length) := by
  have hnil : msgAppendNil ≠ msgAppendBulk := by decide
  have hdet : detectCallPatterns
      (.callN p q (.identN fp fname (some ao) fty) (a0 :: a1 :: rest) cty)
      = (if isNilSlice a0 then [(p, msgAppendNil)] else []) ++
        (if 3 < (a0 :: a1 :: rest).length then [(p, msgAppendBulk)] else []) := by
    simp [detectCallPatterns, isNewCall, isMakeCall, isAppendCall, isBuiltinCall,
      hk, hn, detectAppendPatterns, isInLoop]
  rw [hdet]
  constructor
  · cases hns : isNilSlice a0 <;>
      by_cases hb : 3 < (a0 :: a1 :: rest).length <;>
        simp [hns, hb, hnil, Ne.symm hnil]
  · cases hns : isNilSlice a0 <;>
      by_cases hb : 3 < (a0 :: a1 :: rest).length <;>
        simp [hns, hb, hnil, Ne.symm hnil]

/-- **C9** (amended, witness): applied to `append(nil, a, b, c)`. -/
theorem c9_amended_witness :
    ((400, msgAppendNil) ∈ detectCallPatterns appendNilBulkCall) ∧
    ((400, msgAppendBulk) ∈ detectCallPatterns appendNilBulkCall) := by
  have h := c9_amended_append_thresholds 400 420 400 "append" appendObj none none
    (.identN 407 "nil" none none) (.identN 412 "a" none (some .basicOther))
    [.identN 415 "b" none (some .basicOther), .identN 418 "c" none (some .basicOther)]
    rfl rfl
  exact ⟨h.1.mpr (by decide), h.2.mpr (by decide)⟩

/-- **C10** (counterexample).  A single `DetectPattern` invocation on the
call `append(nil, a, b, c)` emits two findings (the nil-growth and the
bulk-growth finding), so "at most one finding per invocation" fails. -/
theorem c10_counterexample_two_findings_one_invocation :
    (DetectPattern appendNilBulkCall).length = 2 := by
  decide

/-- **C10** (amended).  The call-pattern categories are tried in a fixed
priority order (explicit heap-alloc, make, append, reflective,
string-formatting, boxing) and the first matching category short-circuits
the rest, so on every node all findings of one `detectCallPatterns`
invocation belong to a single category — but a single category (append) may
emit more than one finding. -/
theorem c10_amended_single_category_fires (c : Node) :
    (∀ f ∈ detectCallPatterns c, f.2 ∈ newCallMsgs) ∨
    (∀ f ∈ detectCallPatterns c, f.2 ∈ makeMsgs) ∨
    (∀ f ∈ detectCallPatterns c, f.2 ∈ appendMsgs) ∨
    (∀ f ∈ detectCallPatterns c, f.2 ∈ reflectMsgs) ∨
    (∀ f ∈ detectCallPatterns c, f.2 ∈ fmtMsgs) ∨
    (∀ f ∈ detectCallPatterns c, f.2 ∈ boxingMsgs) := by
  unfold detectCallPatterns
  by_cases h1 : isNewCall c = true
  · left; simp [h1, newCallMsgs]
  · by_cases h2 : isMakeCall c = true
    · right; left
      simp only [h1, h2, if_true, if_false, Bool.false_eq_true]
      exact detectMakePatterns_subset c
    · by_cases h3 : isAppendCall c = true
      · right; right; left
        simp only [h1, h2, h3, if_true, if_false, Bool.false_eq_true]
        exact detectAppendPatterns_subset c
      · by_cases h4 : isReflectAllocation c = true
        · right; right; right; left
          simp [h1, h2, h3, h4, reflectMsgs]
        · by_cases h5 : isStringFormattingCall c = true
          · right; right; right; right; left
            simp only [h1, h2, h3, h4, h5, if_true, if_false, Bool.false_eq_true]
            exact detectStringFormattingPatterns_subset c
          · by_cases h6 : isBoxingCall c = true
            · right; right; right; right; right
              simp [h1, h2, h3, h4, h5, h6, boxingMsgs]
            · left
              simp [h1, h2, h3, h4, h5, h6]

/-- **C10** (amended, witness): the disjunction instantiated at the
two-finding append call (the append category is the one that fires). -/
theorem c10_amended_witness :
    (∀ f ∈ detectCallPatterns appendNilBulkCall, f.2 ∈ newCallMsgs) ∨
    (∀ f ∈ detectCallPatterns appendNilBulkCall, f.2 ∈ makeMsgs) ∨
    (∀ f ∈ detectCallPatterns appendNilBulkCall, f.2 ∈ appendMsgs) ∨
    (∀ f ∈ detectCallPatterns appendNilBulkCall, f.2 ∈ reflectMsgs) ∨
    (∀ f ∈ detectCallPatterns appendNilBulkCall, f.2 ∈ fmtMsgs) ∨
    (∀ f ∈ detectCallPatterns appendNilBulkCall, f.2 ∈ boxingMsgs) :=
  c10_amended_single_category_fires appendNilBulkCall

/-- **C3.**  `AddFix` overlap resolution: a new edit that overlaps no
recorded edit is appended; a new edit whose range overlaps a recorded edit
(the first such, scanning in order) replaces it in place exactly when its
replacement text is non-empty and not a placeholder (`TODO`) marker, and is
dropped otherwise; in particular, submitting two overlapping edits where
the second has non-placeholder text retains only the second. -/
theorem c3_addfix_overlap_resolution :
    (∀ (es : List TextEdit) (e : TextEdit),
      (∀ g ∈ es, ¬ editOverlaps e g) → addEditOnce es e = es ++ [e]) ∧
    (∀ (es₁ es₂ : List TextEdit) (f e : TextEdit),
      (∀ g ∈ es₁, ¬ editOverlaps e g) → editOverlaps e f →
      isBetterReplacement e = true →
      addEditOnce (es₁ ++ f :: es₂) e = es₁ ++ e :: es₂) ∧
    (∀ (es₁ es₂ : List TextEdit) (f e : TextEdit),
      (∀ g ∈ es₁, ¬ editOverlaps e g) → editOverlaps e f →
      isBetterReplacement e = false →
      addEditOnce (es₁ ++ f :: es₂) e = es₁ ++ f :: es₂) ∧
    (∀ (fn : String) (e₁ e₂ : TextEdit),
      editOverlaps e₂ e₁ → isBetterReplacement e₂ = true →
      getA (AddFix (AddFix NewFixTracker fn [e₁]) fn [e₂]) fn = some [e₂]) := by
  have append_case : ∀ (es : List TextEdit) (e : TextEdit),
      (∀ g ∈ es, ¬ editOverlaps e g) → addEditOnce es e = es ++ [e] := by
    intro es e h
    induction es with
    | nil => rfl
    | cons o rest ih =>
      have ho : ¬ editOverlaps e o := h o (by simp)
      simp only [addEditOnce, if_neg ho]
      rw [ih fun g hg => h g (by simp [hg])]
      simp
  refine ⟨append_case, ?_, ?_, ?_⟩
  · intro es₁ es₂ f e h hf hb
    induction es₁ with
    | nil => simp [addEditOnce, if_pos hf, hb]
    | cons o rest ih =>
      have ho : ¬ editOverlaps e o := h o (by simp)
      simp only [List.cons_append, addEditOnce, if_neg ho, List.append_eq]
      rw [ih fun g hg => h g (by simp [hg])]
  · intro es₁ es₂ f e h hf hb
    induction es₁ with
    | nil => simp [addEditOnce, if_pos hf, hb]
    | cons o rest ih =>
      have ho : ¬ editOverlaps e o := h o (by simp)
      simp only [List.cons_append, addEditOnce, if_neg ho, List.append_eq]
      rw [ih fun g hg => h g (by simp [hg])]
  · intro fn e₁ e₂ ho hb
    simp [AddFix, NewFixTracker, getA, setA, addEditOnce, if_pos ho, hb]

/-- **C3** (witness): two concrete overlapping edits, the second with
non-placeholder text; only the second is retained. -/
theorem c3_witness :
    getA (AddFix (AddFix NewFixTracker "a.go" [⟨1, 5, "x"⟩]) "a.go" [⟨2, 6, "y"⟩]) "a.go"
      = some [⟨2, 6, "y"⟩] :=
  c3_addfix_overlap_resolution.2.2.2 "a.go" ⟨1, 5, "x"⟩ ⟨2, 6, "y"⟩
    (by constructor <;> decide) (by decide)

/-- **C7.**  `AddFix` is idempotent under repeated identical submissions of
a well-formed edit (`pos ≤ stop`): whether the same edit is submitted twice
in two successive calls or twice within one call, exactly one copy is
recorded. -/
theorem c7_addfix_idempotent (fn : String) (e : TextEdit) (h : e.pos ≤ e.stop) :
    getA (AddFix (AddFix NewFixTracker fn [e]) fn [e]) fn = some [e] ∧
    getA (AddFix NewFixTracker fn [e, e]) fn = some [e] := by
  have ho : editOverlaps e e := ⟨h, h⟩
  have key : addEditOnce [e] e = [e] := by
    cases hb : isBetterReplacement e <;> simp [addEditOnce, if_pos ho, hb]
  constructor
  · simp [AddFix, NewFixTracker, getA, setA, addEditOnce, key, ho]
  · simp [AddFix, NewFixTracker, getA, setA, addEditOnce, key, ho]

/-- **C7** (witness). -/
theorem c7_witness :
    getA (AddFix (AddFix NewFixTracker "b.go" [⟨3, 7, "z"⟩]) "b.go" [⟨3, 7, "z"⟩]) "b.go"
      = some [⟨3, 7, "z"⟩] :=
  (c7_addfix_idempotent "b.go" ⟨3, 7, "z"⟩ (by decide)).1

/-- Applying one in-bounds edit to `P ++ T` with range inside `P` leaves
`T` untouched. -/
theorem applyTextEdit_append (P T : List Char) (e : TextEdit)
    (h1 : e.pos ≤ e.stop) (h2 : e.stop ≤ P.length) :
    applyTextEdit (P ++ T) e = applyTextEdit P e ++ T := by
  have hp : e.pos ≤ P.length := h1.trans h2
  unfold applyTextEdit
  rw [if_neg (by simp only [List.length_append]; omega), if_neg (by omega)]
  rw [List.take_append_of_le_length hp, List.drop_append_of_le_length h2]
  simp

/-- The edit range never shrinks the content below its own start. -/
theorem applyTextEdit_length_ge (P : List Char) (e : TextEdit)
    (h1 : e.pos ≤ e.stop) (h2 : e.stop ≤ P.length) :
    e.pos ≤ (applyTextEdit P e).length := by
  unfold applyTextEdit
  split
  · exact h1.trans h2
  · simp only [List.length_append, List.length_take, List.length_drop]
    omega

/-- Folding a descending chain of in-bounds edits over `P ++ T` leaves `T`
untouched. -/
theorem foldl_applyTextEdit_append (l : List TextEdit) (P T : List Char)
    (hp : l.Pairwise (fun a b => b.stop ≤ a.pos))
    (hb : ∀ e ∈ l, e.pos ≤ e.stop ∧ e.stop ≤ P.length) :
    l.foldl applyTextEdit (P ++ T) = l.foldl applyTextEdit P ++ T := by
  induction l generalizing P T with
  | nil => rfl
  | cons f rest ih =>
    have hf := hb f (by simp)
    have h1 : applyTextEdit (P ++ T) f = applyTextEdit P f ++ T :=
      applyTextEdit_append P T f hf.1 hf.2
    simp only [List.foldl_cons, h1]
    refine ih (applyTextEdit P f) T hp.of_cons ?_
    intro e he
    have hef : e.stop ≤ f.pos := (List.pairwise_cons.mp hp).1 e he
    exact ⟨(hb e (by simp [he])).1,
      hef.trans (applyTextEdit_length_ge P f hf.1 hf.2)⟩

/-- Folding `applyTextEdit` over a descending chain of pairwise-disjoint
in-bounds edits computes exactly the specification splice. -/
theorem foldl_applyTextEdit_eq_splice (l : List TextEdit) (c : List Char)
    (hp : l.Pairwise (fun a b => b.stop ≤ a.pos))
    (hb : ∀ e ∈ l, e.pos ≤ e.stop ∧ e.stop ≤ c.length) :
    l.foldl applyTextEdit c = spliceSpec l c := by
  induction l generalizing c with
  | nil => rfl
  | cons e rest ih =>
    have he := hb e (by simp)
    have hpe : e.pos ≤ c.length := he.1.trans he.2
    have h1 : applyTextEdit c e
        = c.take e.pos ++ (e.newText.toList ++ c.drop e.stop) := by
      unfold applyTextEdit; rw [if_neg (by omega)]; simp
    have hlen : (c.take e.pos).length = e.pos := by
      simp only [List.length_take]; omega
    have hbrest : ∀ f ∈ rest, f.pos ≤ f.stop ∧ f.stop ≤ (c.take e.pos).length := by
      intro f hf
      have hef : f.stop ≤ e.pos := (List.pairwise_cons.mp hp).1 f hf
      exact ⟨(hb f (by simp [hf])).1, by rw [hlen]; exact hef⟩
    simp only [List.foldl_cons, spliceSpec, h1]
    rw [foldl_applyTextEdit_append rest (c.take e.pos) _ hp.of_cons hbrest,
      ih (c.take e.pos) hp.of_cons hbrest]
    simp [List.append_assoc]

/-- `insertDesc` inserts one element, up to permutation. -/
theorem insertDesc_perm (e : TextEdit) (l : List TextEdit) :
    List.Perm (insertDesc e l) (e :: l) := by
  induction l with
  | nil => exact List.Perm.refl _
  | cons f rest ih =>
    unfold insertDesc
    split
    · exact List.Perm.refl _
    · exact (ih.cons f).trans (List.Perm.swap e f rest)

/-- `sortFixesDesc` permutes its input. -/
theorem sortFixesDesc_perm (l : List TextEdit) :
    List.Perm (sortFixesDesc l) l := by
  induction l with
  | nil => exact List.Perm.refl _
  | cons f rest ih =>
    unfold sortFixesDesc
    simp only [List.foldr_cons]
    exact (insertDesc_perm f _).trans (ih.cons f)

/-- `insertDesc` preserves the descending-by-position order. -/
theorem insertDesc_sorted (e : TextEdit) (l : List TextEdit)
    (h : l.Pairwise (fun a b => b.pos ≤ a.pos)) :
    (insertDesc e l).Pairwise (fun a b => b.pos ≤ a.pos) := by
  induction l with
  | nil => simp [insertDesc]
  | cons f rest ih =>
    obtain ⟨hf, hrest⟩ := List.pairwise_cons.mp h
    unfold insertDesc
    split
    case isTrue hfe =>
      refine List.pairwise_cons.mpr ⟨?_, h⟩
      intro b hb
      rcases List.mem_cons.mp hb with rfl | hb
      · exact hfe
      · exact (hf b hb).trans hfe
    case isFalse hfe =>
      refine List.pairwise_cons.mpr ⟨?_, ih hrest⟩
      intro b hb
      rcases List.mem_cons.mp ((insertDesc_perm e rest).mem_iff.mp hb) with rfl | hbr
      · omega
      · exact hf b hbr

/-- The sort of `ApplyFixesToFile` yields a descending-by-position list. -/
theorem sortFixesDesc_sorted (l : List TextEdit) :
    (sortFixesDesc l).Pairwise (fun a b => b.pos ≤ a.pos) := by
  induction l with
  | nil => simp [sortFixesDesc]
  | cons f rest ih =>
    unfold sortFixesDesc
    simp only [List.foldr_cons]
    exact insertDesc_sorted f _ ih

/-- A descending-by-position, pairwise-disjoint list of well-formed edits
with distinct starts is a descending chain (each later edit ends before the
earlier one starts). -/
theorem sorted_disjoint_chain (l : List TextEdit)
    (hs : l.Pairwise (fun a b => b.pos ≤ a.pos))
    (hd : l.Pairwise (fun a b => (a.stop ≤ b.pos ∨ b.stop ≤ a.pos) ∧ a.pos ≠ b.pos))
    (hwf : ∀ e ∈ l, e.pos ≤ e.stop) :
    l.Pairwise (fun a b => b.stop ≤ a.pos) := by
  refine (hs.and hd).imp_of_mem ?_
  intro a b ha hb hab
  obtain ⟨hba, hdisj, hne⟩ := hab
  have hwa := hwf a ha
  rcases hdisj with h | h
  · omega
  · exact h

/-- **C4.**  For pairwise non-overlapping in-bounds edits (with distinct
start positions), `ApplyFixesToFile` — sort by descending start position,
then apply each edit in turn — computes exactly the specification splice:
each edit replaces `[start, end)` of the *original* content by its
replacement text and the content outside every edited range is preserved. -/
theorem c4_apply_fixes_eq_splice (content : List Char) (fixes : List TextEdit)
    (hwf : ∀ e ∈ fixes, e.pos ≤ e.stop ∧ e.stop ≤ content.length)
    (hd : fixes.Pairwise
      (fun a b => (a.stop ≤ b.pos ∨ b.stop ≤ a.pos) ∧ a.pos ≠ b.pos)) :
    ApplyFixesToFile content fixes = spliceSpec (sortFixesDesc fixes) content := by
  unfold ApplyFixesToFile
  have hperm := sortFixesDesc_perm fixes
  have hd' := (hperm.pairwise_iff
    (fun hab => ⟨Or.symm hab.1, Ne.symm hab.2⟩)).mpr hd
  have hwf' : ∀ e ∈ sortFixesDesc fixes, e.pos ≤ e.stop ∧ e.stop ≤ content.length :=
    fun e he => hwf e (hperm.mem_iff.mp he)
  exact foldl_applyTextEdit_eq_splice _ content
    (sorted_disjoint_chain _ (sortFixesDesc_sorted fixes) hd'
      fun e he => (hwf' e he).1)
    hwf'

/-- **C4** (witness): two disjoint edits on `"abcdefgh"`; the theorem
applies and the splice evaluates to `"aXYdeZgh"`. -/
theorem c4_witness :
    ApplyFixesToFile "abcdefgh".toList [⟨1, 3, "XY"⟩, ⟨5, 6, "Z"⟩]
      = spliceSpec (sortFixesDesc [⟨1, 3, "XY"⟩, ⟨5, 6, "Z"⟩]) "abcdefgh".toList ∧
    ApplyFixesToFile "abcdefgh".toList [⟨1, 3, "XY"⟩, ⟨5, 6, "Z"⟩]
      = "aXYdeZgh".toList :=
  ⟨c4_apply_fixes_eq_splice "abcdefgh".toList [⟨1, 3, "XY"⟩, ⟨5, 6, "Z"⟩]
    (by decide) (by decide), by decide⟩

/-- `checkEscapingAllocation` appends exactly `escEmits` to the reports. -/
theorem checkEsc_reports (st : InspState) (e : Node) :
    (checkEscapingAllocation st e).reports = st.reports ++ escEmits e := by
  cases e <;> simp only [checkEscapingAllocation, escEmits] <;>
    (repeat' split) <;> simp_all

/-- Folding `checkEscapingAllocation` appends exactly `escList`. -/
theorem foldl_checkEsc_reports (l : List Node) (st : InspState) :
    (l.foldl checkEscapingAllocation st).reports = st.reports ++ escList l := by
  induction l generalizing st with
  | nil => simp [escList]
  | cons e rest ih =>
    simp only [List.foldl_cons, escList, ih, checkEsc_reports, List.append_assoc]

/-- `visitArg` never touches the reports. -/
theorem visitArg_reports (acc : InspState) (a : Node) :
    (visitArg acc a).reports = acc.reports := by
  cases a <;> simp only [visitArg] <;> (repeat' split) <;> simp [bumpSt]

/-- The use-count fold over call arguments never touches the reports. -/
theorem callArgsFold_reports (args : List Node) (st : InspState) :
    (args.foldl visitArg st).reports = st.reports := by
  induction args generalizing st with
  | nil => rfl
  | cons a rest ih => rw [List.foldl_cons, ih, visitArg_reports]

/-- One visit appends exactly `visitEmits` to the reports. -/
theorem visit_reports (st : InspState) (n : Node) :
    (inspectVisit st n).reports = st.reports ++ visitEmits n := by
  cases n <;> simp only [inspectVisit, visitEmits] <;>
    first
      | (rw [callArgsFold_reports]; simp)
      | (rw [foldl_checkEsc_reports]; simp)
      | ((repeat' split) <;> simp [bumpSt])

mutual

/-- The traversal of a subtree appends exactly `emittedNode` to the
reports (report emission never depends on the tracker state). -/
theorem inspectNode_reports : ∀ (st : InspState) (n : Node),
    (inspectNode st n).reports = st.reports ++ emittedNode n
  | st, .identN p nm o t => by
    rw [inspectNode, emittedNode, visit_reports]
  | st, .litN p k v t => by
    rw [inspectNode, emittedNode, visit_reports]
  | st, .tyExprN p t => by
    rw [inspectNode, emittedNode, visit_reports]
  | st, .unaryN p a x t => by
    rw [inspectNode, emittedNode, inspectNode_reports _ x, visit_reports,
      List.append_assoc]
  | st, .callN p q f args t => by
    rw [inspectNode, emittedNode, inspectList_reports _ args,
      inspectNode_reports _ f, visit_reports, List.append_assoc,
      List.append_assoc]
  | st, .starN p x t => by
    rw [inspectNode, emittedNode, inspectNode_reports _ x, visit_reports,
      List.append_assoc]
  | st, .selN p x sl t => by
    rw [inspectNode, emittedNode, inspectNode_reports _ x, visit_reports,
      List.append_assoc]
  | st, .compositeN p elts t => by
    rw [inspectNode, emittedNode, inspectList_reports _ elts, visit_reports,
      List.append_assoc]
  | st, .binaryN p a x y t => by
    rw [inspectNode, emittedNode, inspectNode_reports _ y,
      inspectNode_reports _ x, visit_reports, List.append_assoc,
      List.append_assoc]
  | st, .assertN p x t => by
    rw [inspectNode, emittedNode, inspectNode_reports _ x, visit_reports,
      List.append_assoc]
  | st, .funcLitN p b => by
    rw [inspectNode, emittedNode, inspectList_reports _ b, visit_reports,
      List.append_assoc]
  | st, .retN p rs => by
    rw [inspectNode, emittedNode, inspectList_reports _ rs, visit_reports,
      List.append_assoc]
  | st, .assignN p l r => by
    rw [inspectNode, emittedNode, inspectList_reports _ r,
      inspectList_reports _ l, visit_reports, List.append_assoc,
      List.append_assoc]
  | st, .exprStmtN x => by
    rw [inspectNode, emittedNode, inspectNode_reports _ x, visit_reports,
      List.append_assoc]
  | st, .blockN stmts => by
    rw [inspectNode, emittedNode, inspectList_reports _ stmts, visit_reports,
      List.append_assoc]
  | st, .funcDeclN nm b => by
    rw [inspectNode, emittedNode, inspectList_reports _ b, visit_reports,
      List.append_assoc]

/-- The traversal of a node list appends exactly `emittedList`. -/
theorem inspectList_reports : ∀ (st : InspState) (l : List Node),
    (inspectList st l).reports = st.reports ++ emittedList l
  | st, [] => by rw [inspectList, emittedList, List.append_nil]
  | st, n :: rest => by
    rw [inspectList, emittedList, inspectList_reports _ rest,
      inspectNode_reports _ n, List.append_assoc]

end

/-- A node satisfying `isNewCall` is a call expression, and its visit
reports the general classifier finding. -/
theorem newCall_mem_visitEmits (c : Node) (h : isNewCall c = true) :
    (c.posOf, msgNewCall) ∈ visitEmits c := by
  cases c
  case callN p q f args t =>
    simp [visitEmits, DetectPattern, detectCallPatterns, h, Node.posOf]
  all_goals simp [isNewCall, isBuiltinCall] at h

/-- `checkEscapingAllocation` reports the return/assignment finding at a
`new()` call. -/
theorem escEmits_newcall (c : Node) (h : isNewCall c = true) :
    escEmits c = [(c.posOf, msgNewRet)] := by
  cases c
  case callN p q f args t => simp [escEmits, h, Node.posOf]
  all_goals simp [isNewCall, isBuiltinCall] at h

/-- Membership in the escape-check findings of a statement's right-hand
sides. -/
theorem mem_escList {c : Node} {l : List Node} (hc : c ∈ l)
    (h : isNewCall c = true) : (c.posOf, msgNewRet) ∈ escList l := by
  induction l with
  | nil => cases hc
  | cons e rest ih =>
    rw [escList]
    rcases List.mem_cons.mp hc with rfl | hcr
    · exact List.mem_append_left _ (by rw [escEmits_newcall c h]; simp)
    · exact List.mem_append_right _ (ih hcr)

/-- Visiting a `return`/assignment statement reports the
return/assignment finding for each `new()` call among its right-hand
sides. -/
theorem newRet_mem_visitEmits (r c : Node) (hr : c ∈ directRhs r)
    (hc : isNewCall c = true) : (c.posOf, msgNewRet) ∈ visitEmits r := by
  cases r
  case retN p rs =>
    simp only [directRhs] at hr
    exact List.mem_append_right _ (mem_escList hr hc)
  case assignN p l rhs =>
    simp only [directRhs] at hr
    exact List.mem_append_right _ (mem_escList hr hc)
  all_goals simp [directRhs] at hr

mutual

/-- A finding reported when visiting any node of a subtree is among the
subtree's emitted findings. -/
theorem mem_emittedNode_of_visit : ∀ (f : Finding) (n c : Node),
    c ∈ preNodes n → f ∈ visitEmits c → f ∈ emittedNode n
  | f, .identN p nm o t, c => by
    intro hc hf
    rw [preNodes] at hc
    rw [emittedNode]
    rcases List.mem_cons.mp hc with rfl | hx
    · exact hf
    · cases hx
  | f, .litN p k v t, c => by
    intro hc hf
    rw [preNodes] at hc
    rw [emittedNode]
    rcases List.mem_cons.mp hc with rfl | hx
    · exact hf
    · cases hx
  | f, .tyExprN p t, c => by
    intro hc hf
    rw [preNodes] at hc
    rw [emittedNode]
    rcases List.mem_cons.mp hc with rfl | hx
    · exact hf
    · cases hx
  | f, .unaryN p a x t, c => by
    intro hc hf
    rw [preNodes] at hc
    rw [emittedNode]
    rcases List.mem_cons.mp hc with rfl | hx
    · exact List.mem_append_left _ hf
    · exact List.mem_append_right _ (mem_emittedNode_of_visit f x c hx hf)
  | f, .callN p q fn args t, c => by
    intro hc hf
    rw [preNodes] at hc
    rw [emittedNode]
    rcases List.mem_cons.mp hc with rfl | hx
    · exact List.mem_append_left _ hf
    · rcases List.mem_append.mp hx with h1 | h2
      · exact List.mem_append_right _
          (List.mem_append_left _ (mem_emittedNode_of_visit f fn c h1 hf))
      · exact List.mem_append_right _
          (List.mem_append_right _ (mem_emittedList_of_visit f args c h2 hf))
  | f, .starN p x t, c => by
    intro hc hf
    rw [preNodes] at hc
    rw [emittedNode]
    rcases List.mem_cons.mp hc with rfl | hx
    · exact List.mem_append_left _ hf
    · exact List.mem_append_right _ (mem_emittedNode_of_visit f x c hx hf)
  | f, .selN p x sl t, c => by
    intro hc hf
    rw [preNodes] at hc
    rw [emittedNode]
    rcases List.mem_cons.mp hc with rfl | hx
    · exact List.mem_append_left _ hf
    · exact List.mem_append_right _ (mem_emittedNode_of_visit f x c hx hf)
  | f, .compositeN p elts t, c => by
    intro hc hf
    rw [preNodes] at hc
    rw [emittedNode]
    rcases List.mem_cons.mp hc with rfl | hx
    · exact List.mem_append_left _ hf
    · exact List.mem_append_right _ (mem_emittedList_of_visit f elts c hx hf)
  | f, .binaryN p a x y t, c => by
    intro hc hf
    rw [preNodes] at hc
    rw [emittedNode]
    rcases List.mem_cons.mp hc with rfl | hx
    · exact List.mem_append_left _ hf
    · rcases List.mem_append.mp hx with h1 | h2
      · exact List.mem_append_right _
          (List.mem_append_left _ (mem_emittedNode_of_visit f x c h1 hf))
      · exact List.mem_append_right _
          (List.mem_append_right _ (mem_emittedNode_of_visit f y c h2 hf))
  | f, .assertN p x t, c => by
    intro hc hf
    rw [preNodes] at hc
    rw [emittedNode]
    rcases List.mem_cons.mp hc with rfl | hx
    · exact List.mem_append_left _ hf
    · exact List.mem_append_right _ (mem_emittedNode_of_visit f x c hx hf)
  | f, .funcLitN p b, c => by
    intro hc hf
    rw [preNodes] at hc
    rw [emittedNode]
    rcases List.mem_cons.mp hc with rfl | hx
    · exact List.mem_append_left _ hf
    · exact List.mem_append_right _ (mem_emittedList_of_visit f b c hx hf)
  | f, .retN p rs, c => by
    intro hc hf
    rw [preNodes] at hc
    rw [emittedNode]
    rcases List.mem_cons.mp hc with rfl | hx
    · exact List.mem_append_left _ hf
    · exact List.mem_append_right _ (mem_emittedList_of_visit f rs c hx hf)
  | f, .assignN p l r, c => by
    intro hc hf
    rw [preNodes] at hc
    rw [emittedNode]
    rcases List.mem_cons.mp hc with rfl | hx
    · exact List.mem_append_left _ hf
    · rcases List.mem_append.mp hx with h1 | h2
      · exact List.mem_append_right _
          (List.mem_append_left _ (mem_emittedList_of_visit f l c h1 hf))
      · exact List.mem_append_right _
          (List.mem_append_right _ (mem_emittedList_of_visit f r c h2 hf))
  | f, .exprStmtN x, c => by
    intro hc hf
    rw [preNodes] at hc
    rw [emittedNode]
    rcases List.mem_cons.mp hc with rfl | hx
    · exact List.mem_append_left _ hf
    · exact List.mem_append_right _ (mem_emittedNode_of_visit f x c hx hf)
  | f, .blockN stmts, c => by
    intro hc hf
    rw [preNodes] at hc
    rw [emittedNode]
    rcases List.mem_cons.mp hc with rfl | hx
    · exact List.mem_append_left _ hf
    · exact List.mem_append_right _ (mem_emittedList_of_visit f stmts c hx hf)
  | f, .funcDeclN nm b, c => by
    intro hc hf
    rw [preNodes] at hc
    rw [emittedNode]
    rcases List.mem_cons.mp hc with rfl | hx
    · exact List.mem_append_left _ hf
    · exact List.mem_append_right _ (mem_emittedList_of_visit f b c hx hf)

/-- A finding reported when visiting any node of a subtree list is among
the list's emitted findings. -/
theorem mem_emittedList_of_visit : ∀ (f : Finding) (l : List Node) (c : Node),
    c ∈ preList l → f ∈ visitEmits c → f ∈ emittedList l
  | f, [], c => by
    intro hc _
    rw [preList] at hc
    cases hc
  | f, n :: rest, c => by
    intro hc hf
    rw [preList] at hc
    rw [emittedList]
    rcases List.mem_append.mp hc with h1 | h2
    · exact List.mem_append_left _ (mem_emittedNode_of_visit f n c h1 hf)
    · exact List.mem_append_right _ (mem_emittedList_of_visit f rest c h2 hf)

end

/-- Every finding emitted during the traversal appears in the final
reports of `InspectFile`. -/
theorem mem_InspectFile_of_emitted (root : Node) (f : Finding)
    (hf : f ∈ emittedNode root) : f ∈ (InspectFile root).reports := by
  have hrep : (InspectFile root).reports
      = (inspectNode ⟨newUsageTracker, []⟩ root).reports
        ++ summaryFindings (inspectNode ⟨newUsageTracker, []⟩ root).tracker := rfl
  rw [hrep, inspectNode_reports]
  exact List.mem_append_left _ (by simpa using hf)

/-- **C6.**  Every `new(T)` call node in a file produces the general
"always allocates on heap" classifier finding at its position; when the
call additionally appears directly as a `return` result or an assignment
right-hand side, the usage tracker reports a second, distinct
"in return/assignment" finding for the same call position. -/
theorem c6_new_call_two_findings :
    (∀ (root c : Node), c ∈ preNodes root → isNewCall c = true →
      (c.posOf, msgNewCall) ∈ (InspectFile root).reports) ∧
    (∀ (root r c : Node), r ∈ preNodes root → c ∈ directRhs r →
      isNewCall c = true →
      (c.posOf, msgNewRet) ∈ (InspectFile root).reports) ∧
    msgNewCall ≠ msgNewRet := by
  refine ⟨?_, ?_, by decide⟩
  · intro root c hc hnew
    exact mem_InspectFile_of_emitted root _
      (mem_emittedNode_of_visit _ root c hc (newCall_mem_visitEmits c hnew))
  · intro root r c hr hc hnew
    exact mem_InspectFile_of_emitted root _
      (mem_emittedNode_of_visit _ root r hr (newRet_mem_visitEmits r c hc hnew))

/-- **C6** (witness): for `func useNew() *string { return new(string) }`
both findings appear at the call position 310. -/
theorem c6_witness :
    (310, msgNewCall) ∈ (InspectFile useNewFile).reports ∧
    (310, msgNewRet) ∈ (InspectFile useNewFile).reports := by
  constructor
  · exact c6_new_call_two_findings.1 useNewFile newStringCall
      (by simp [useNewFile, preNodes, preList, newStringCall]) (by decide)
  · exact c6_new_call_two_findings.2.1 useNewFile (.retN 300 [newStringCall])
      newStringCall (by simp [useNewFile, preNodes, preList, newStringCall])
      (by simp [directRhs]) (by decide)
